import Mathlib

/-!
Shallow embedding of the RoomBookingPrac booking engine
(`inc/common.hpp`, `inc/strategies.hpp`, `inc/Command.hpp`,
`src/BookingManager.cpp`) and proofs about its specification claims.

Int instants are modelled as `Int` epoch seconds (the source stores
`std::chrono::system_clock::time_point` values and serializes them as
epoch seconds).  Identifiers (`uint64_t` in the source) are modelled as
`Nat`; the one place where 64-bit wrap-around is observable, the
repository's `maxid + 1` identifier assignment, carries an explicit
`% 2^64`.
-/

namespace RoomBooking

/-- `ERole` from `inc/common.hpp`. -/
inductive ERole where
  | Admin
  | Manager
  | User
deriving DecidableEq

/-- `TUser` from `inc/common.hpp`. -/
structure TUser where
  Id : Nat
  Name : String
  Role : ERole
  Priority : Int
deriving DecidableEq

/-- `TResource` from `inc/common.hpp`. -/
structure TResource where
  Id : String
deriving DecidableEq

/-- `TRecurrence::Type` from `inc/common.hpp`. -/
inductive ERecType where
  | None
  | Daily
  | Weekly
deriving DecidableEq

/-- `TRecurrence` from `inc/common.hpp`. -/
structure TRecurrence where
  type : ERecType
  Until : Option Int
deriving DecidableEq

/-- `TBooking` from `inc/common.hpp`. -/
structure TBooking where
  Id : Nat
  RoomIdInternal : Nat
  UserIdInternal : Nat
  Start : Int
  End : Int
  Recurrence : TRecurrence
  Title : String
  Description : String
  Attendees : List Nat
  Resources : List TResource
  OwnerPriority : Int
deriving DecidableEq

/-- `std::chrono::hours(n)` as epoch seconds. -/
def hours (n : Int) : Int := n * 3600

/-- `NBooking::IntervalsOverlap` from `inc/common.hpp`:
`!(a_end <= b_start || a_start >= b_end)`. -/
def IntervalsOverlap (aStart aEnd bStart bEnd : Int) : Bool :=
  !(decide (aEnd ≤ bStart) || decide (aStart ≥ bEnd))

/-- The `until`-capped limit computed at the top of `GenerateInstances`:
`limit = to`, lowered to `*Until` when present and smaller. -/
def recLimit (b : TBooking) (t : Int) : Int :=
  match b.Recurrence.Until with
  | some u => if u < t then u else t
  | none => t

/-- The `while (cur_start < limit && counter < MAX_INSTANCES)` loop of
`GenerateInstances`; `fuel` is the number of remaining iterations
(`MAX_INSTANCES - counter`).  `step` is 24h (Daily) or 168h (Weekly). -/
def generateLoop (b : TBooking) (dur step limit f t : Int) :
    Int → Nat → List TBooking
  | _, 0 => []
  | cur, Nat.succ fuel =>
    if cur < limit then
      let curEnd := cur + dur
      let rest := generateLoop b dur step limit f t (cur + step) fuel
      if IntervalsOverlap cur curEnd f t then
        { b with Start := cur, End := curEnd } :: rest
      else
        rest
    else []

/-- The sequence of `cur_start` values the `GenerateInstances` loop
visits: from `cur` in increments of `step` while below `limit`, for at
most `fuel` steps. -/
def stepStarts (step limit : Int) : Int → Nat → List Int
  | _, 0 => []
  | cur, Nat.succ fuel =>
    if cur < limit then cur :: stepStarts step limit (cur + step) fuel else []

/-- `NBooking::GenerateInstances` from `inc/common.hpp`. -/
def GenerateInstances (b : TBooking) (f t : Int) : List TBooking :=
  let dur := b.End - b.Start
  match b.Recurrence.type with
  | .None =>
    if IntervalsOverlap b.Start b.End f t then [b] else []
  | .Daily => generateLoop b dur (hours 24) (recLimit b t) f t b.Start 10000
  | .Weekly => generateLoop b dur (hours (24 * 7)) (recLimit b t) f t b.Start 10000

/-- `TConflictResolutionResult` from `inc/strategies.hpp`. -/
structure TConflictResolutionResult where
  ok : Bool
  Message : Option String
  SuggestedStart : Option Int
  ToPreempt : List Nat
deriving DecidableEq

/-- `TRejectStrategy::Resolve` from `inc/strategies.hpp`. -/
def rejectResolve (candidate : TBooking) : List TBooking → TConflictResolutionResult
  | [] => ⟨true, none, none, []⟩
  | e :: rest =>
    if !(decide (candidate.End ≤ e.Start) || decide (candidate.Start ≥ e.End)) then
      ⟨false, some ("Conflict with booking id " ++ toString e.Id), none, []⟩
    else rejectResolve candidate rest

/-- The overlap test of `TAutoBumpStrategy::Resolve`:
`!(start + dur <= e.Start || start >= e.End)`. -/
def bumpHit (dur s : Int) (e : TBooking) : Bool :=
  !(decide (s + dur ≤ e.Start) || decide (s ≥ e.End))

/-- One full `for (auto const& e : existing)` pass of
`TAutoBumpStrategy::Resolve`, threading the mutable `start`. -/
def bumpPass (dur : Int) (existing : List TBooking) (start : Int) : Int :=
  existing.foldl (fun s e => if bumpHit dur s e then e.End else s) start

/-- The `while (moved)` loop of `TAutoBumpStrategy::Resolve`.  The source
loop is unbounded; here it runs on fuel, and `autoBump_reaches_fixpoint`
below proves that `existing.length + 1` passes always reach a true fixed
point of `bumpPass` (`moved == false`), so this equals the source loop. -/
def autoBumpGo (dur : Int) (existing : List TBooking) : Int → Nat → Int
  | start, 0 => start
  | start, Nat.succ fuel =>
    let s' := bumpPass dur existing start
    if s' = start then start else autoBumpGo dur existing s' fuel

/-- `TAutoBumpStrategy::Resolve` from `inc/strategies.hpp`. -/
def autoBumpResolve (b : TBooking) (existing : List TBooking) : TConflictResolutionResult :=
  let dur := b.End - b.Start
  let start := autoBumpGo dur existing b.Start (existing.length + 1)
  if start ≠ b.Start then ⟨true, some "Auto-bumped", some start, []⟩
  else ⟨true, none, none, []⟩

/-- The `for (auto const& e : existing)` loop of
`TPreemptStrategy::Resolve`, with accumulator `to_preempt`. -/
def preemptGo (candidate : TBooking) (actor : TUser) :
    List TBooking → List Nat → TConflictResolutionResult
  | [], acc => ⟨true, some "Preempt allowed", none, acc⟩
  | e :: rest, acc =>
    if decide (candidate.End ≤ e.Start) || decide (candidate.Start ≥ e.End) then
      preemptGo candidate actor rest acc
    else if decide (actor.Priority > e.OwnerPriority) then
      preemptGo candidate actor rest (acc ++ [e.Id])
    else ⟨false, some "Higher priority booking exists", none, []⟩

/-- `TPreemptStrategy::Resolve` from `inc/strategies.hpp`. -/
def preemptResolve (candidate : TBooking) (existing : List TBooking) (actor : TUser) :
    TConflictResolutionResult :=
  preemptGo candidate actor existing []

/-- `TQuorumStrategy::Resolve` from `inc/strategies.hpp`. -/
def quorumResolve (quorum : Nat) (candidate : TBooking) :
    List TBooking → TConflictResolutionResult
  | [] => ⟨true, none, none, []⟩
  | e :: rest =>
    if !(decide (candidate.End ≤ e.Start) || decide (candidate.Start ≥ e.End)) then
      if decide (candidate.Attendees.length ≥ quorum) then
        ⟨true, some ("Allowed by quorum (" ++ toString quorum ++ ")"), none, []⟩
      else
        ⟨false, some ("Conflict and quorum not satisfied (need " ++ toString quorum ++ ")"),
          none, []⟩
    else quorumResolve quorum candidate rest

/-- The closed set of `IConflictStrategy` implementations
(`inc/strategies.hpp`), as a tagged variant. -/
inductive Strategy where
  | Reject
  | AutoBump
  | Preempt
  | Quorum (quorum : Nat)
deriving DecidableEq

/-- Virtual dispatch of `IConflictStrategy::Resolve`. -/
def resolve : Strategy → TBooking → List TBooking → TUser → TConflictResolutionResult
  | .Reject, c, ex, _ => rejectResolve c ex
  | .AutoBump, c, ex, _ => autoBumpResolve c ex
  | .Preempt, c, ex, a => preemptResolve c ex a
  | .Quorum q, c, ex, _ => quorumResolve q c ex

/-- 2^64, the modulus of the source's `uint64_t` identifier arithmetic. -/
def U64 : Nat := 2 ^ 64

/-- The live booking set of `TRepository` (`inc/Command.hpp`), an
`unordered_map<Nat, TBooking>` modelled as a list of its values
with identifier keys. -/
abbrev Repo := List TBooking

/-- `Bookings[nb.Id] = nb`: `unordered_map::operator[]` assignment —
replace the entry with that key when present, insert otherwise. -/
def mapAssign (repo : Repo) (nb : TBooking) : Repo :=
  if repo.any (fun x => x.Id == nb.Id) then
    repo.map (fun x => if x.Id == nb.Id then nb else x)
  else repo ++ [nb]

/-- The `maxid` fold of `TRepository::CreateBooking`. -/
def maxId (repo : Repo) : Nat :=
  repo.foldl (fun m b => max m b.Id) 0

/-- `TRepository::CreateBooking` from `inc/Command.hpp` (the in-memory
effect; persistence/journal go to the storage collaborator).  `maxid + 1`
is `uint64_t` arithmetic, hence the `% U64`. -/
def repoCreate (repo : Repo) (b : TBooking) : Nat × Repo :=
  let nid := (maxId repo + 1) % U64
  let nb := { b with Id := nid }
  (nid, mapAssign repo nb)

/-- `TRepository::UpdateBooking` from `inc/Command.hpp`. -/
def repoUpdate (repo : Repo) (b : TBooking) : Repo :=
  mapAssign repo b

/-- `TRepository::RemoveBooking` from `inc/Command.hpp`. -/
def repoRemove (repo : Repo) (id : Nat) : Repo :=
  repo.filter (fun x => x.Id != id)

/-- `TRepository::GetBooking` from `inc/Command.hpp`. -/
def repoGet (repo : Repo) (id : Nat) : Option TBooking :=
  repo.find? (fun x => x.Id == id)

/-- The closed `ICommand` variant set of `inc/Command.hpp`:
`TCreateBookingCommand` (with its `Executed` flag),
`TUpdateBookingCommand`, `TRemoveBookingCommand` (with its saved `Old`). -/
inductive Command where
  | create (b : TBooking) (executed : Bool)
  | update (before after : TBooking)
  | remove (id : Nat) (old : Option TBooking)
deriving DecidableEq

/-- `ICommand::Execute` on a repository; returns the command's updated
internal state together with the new repository. -/
def cmdExec : Command → Repo → Command × Repo
  | .create b executed, repo =>
    if !executed then
      let pr := repoCreate repo b
      (.create { b with Id := pr.1 } true, pr.2)
    else (.create b executed, repoUpdate repo b)
  | .update bf af, repo => (.update bf af, repoUpdate repo af)
  | .remove id _, repo =>
    match repoGet repo id with
    | some old => (.remove id (some old), repoRemove repo id)
    | none => (.remove id none, repo)

/-- `ICommand::Undo` on a repository. -/
def cmdUndo : Command → Repo → Repo
  | .create b executed, repo => if executed then repoRemove repo b.Id else repo
  | .update bf _, repo => repoUpdate repo bf
  | .remove _ old, repo =>
    match old with
    | some ob => (repoCreate repo ob).2
    | none => repo

/-- `ICommand::Describe`. -/
def cmdDescribe : Command → String
  | .create b _ => "Create booking id=" ++ toString b.Id ++ " title=\"" ++ b.Title ++ "\""
  | .update bf _ => "Update booking id=" ++ toString bf.Id ++ " title=\"" ++ bf.Title ++ "\""
  | .remove id _ => "Cancel booking id=" ++ toString id

/-- `TBookingManager` state (`inc/BookingManager.hpp`): repository, the
active strategy, and the two history deques (list head = deque front =
oldest entry, list last = deque back = newest). -/
structure ManagerState where
  repo : Repo
  strat : Strategy
  undoStack : List Command
  redoStack : List Command
deriving DecidableEq

/-- The stack mutation of `TBookingManager::PushUndo`: `push_back`, then
`pop_front` when the size exceeds `UNDO_LIMIT` (300). -/
def pushCapped (stack : List Command) (cmd : Command) : List Command :=
  let s := stack ++ [cmd]
  if s.length > 300 then s.tail else s

/-- `TBookingManager::PushUndo` from `src/BookingManager.cpp`: cap the
undo stack at 300 (FIFO eviction) and clear the redo stack. -/
def pushUndo (st : ManagerState) (cmd : Command) : ManagerState :=
  { st with undoStack := pushCapped st.undoStack cmd, redoStack := [] }

/-- `TBookingManager::Undo` from `src/BookingManager.cpp`. -/
def undoStep (st : ManagerState) : Option String × ManagerState :=
  match st.undoStack.getLast? with
  | none => (none, st)
  | some cmd =>
    (some ("Undid: " ++ cmdDescribe cmd),
      { st with
        repo := cmdUndo cmd st.repo,
        undoStack := st.undoStack.dropLast,
        redoStack := st.redoStack ++ [cmd] })

/-- The number of successful `Undo` calls observed when invoking
`TBookingManager::Undo` up to `n` times in a row, stopping at the first
empty-stack (`nothing to do`) response. -/
def undoCount : Nat → ManagerState → Nat
  | 0, _ => 0
  | Nat.succ n, st =>
    match undoStep st with
    | (none, _) => 0
    | (some _, st') => 1 + undoCount n st'

/-- `TBookingManager::Redo` from `src/BookingManager.cpp`. -/
def redoStep (st : ManagerState) : Option String × ManagerState :=
  match st.redoStack.getLast? with
  | none => (none, st)
  | some cmd =>
    let pr := cmdExec cmd st.repo
    (some ("Redid: " ++ cmdDescribe cmd),
      { st with
        repo := pr.2,
        redoStack := st.redoStack.dropLast,
        undoStack := st.undoStack ++ [pr.1] })

/-- `TBookingManager::CanCreate`. -/
def canCreate (actor : TUser) : Bool :=
  actor.Role == .Admin || actor.Role == .Manager || actor.Role == .User

/-- `TBookingManager::CanModify`. -/
def canModify (actor : TUser) (target : TBooking) : Bool :=
  match actor.Role with
  | .Admin => true
  | .Manager => true
  | .User => actor.Id == target.UserIdInternal

/-- `TBookingManager::CanCancel` (identical to `CanModify`). -/
def canCancel (actor : TUser) (target : TBooking) : Bool :=
  match actor.Role with
  | .Admin => true
  | .Manager => true
  | .User => actor.Id == target.UserIdInternal

/-- The search-window lower bound of `TBookingManager::CreateBooking`:
`req.Start - hours(24)`. -/
def createWindowFrom (req : TBooking) : Int :=
  req.Start - hours 24

/-- The search-window upper bound of `TBookingManager::CreateBooking`:
`Until + 1h` when a recurrence bound exists, else `Start + 365d`. -/
def createWindowTo (req : TBooking) : Int :=
  match req.Recurrence.Until with
  | some u => u + hours 1
  | none => req.Start + hours (24 * 365)

/-- `requestedInst` of `TBookingManager::CreateBooking`, including the
fallback to the raw request when expansion is empty. -/
def candidateInsts (req : TBooking) : List TBooking :=
  let l := GenerateInstances req (createWindowFrom req) (createWindowTo req)
  if l.isEmpty then [req] else l

/-- The relevance test of `TBookingManager::CreateBooking`: same room, or
sharing a resource identifier. -/
def relatedB (ex req : TBooking) : Bool :=
  ex.RoomIdInternal == req.RoomIdInternal ||
    ex.Resources.any (fun r => req.Resources.any (fun rr => r.Id == rr.Id))

/-- `existingInst` of `TBookingManager::CreateBooking`: occurrences of
every related existing booking over the same window. -/
def existingInsts (repo : Repo) (req : TBooking) : List TBooking :=
  (repo.filter (fun ex => relatedB ex req)).flatMap
    (fun ex => GenerateInstances ex (createWindowFrom req) (createWindowTo req))

/-- The commit block that `TBookingManager::CreateBooking` runs twice
(once inside the loop for a suggested start, once at the end for the
original request): `cmd->Execute()` on a fresh `TCreateBookingCommand`
(i.e. `repoCreate`), read `cmd->id()`, `PushUndo(cmd)`, return the id. -/
def commitCreate (st : ManagerState) (b : TBooking) : Option Nat × ManagerState :=
  let pr := repoCreate st.repo b
  (some pr.1, pushUndo { st with repo := pr.2 } (.create { b with Id := pr.1 } true))

/-- The `for (auto& inst : requestedInst)` loop of
`TBookingManager::CreateBooking`.  `some` is an early return (conflict
abort, or the suggested-start immediate commit); `none` means the loop
ran to completion.  Note the source reads only `res.ok` and
`res.SuggestedStart`: `res.ToPreempt` is never consulted. -/
def createLoop (st : ManagerState) (req : TBooking) (actor : TUser)
    (existingInst : List TBooking) :
    List TBooking → Option (Option Nat × ManagerState)
  | [] => none
  | inst :: rest =>
    let res := resolve st.strat inst existingInst actor
    if !res.ok then some (none, st)
    else
      match res.SuggestedStart with
      | some s =>
        let dur := req.End - req.Start
        some (commitCreate st { req with Start := s, End := s + dur })
      | none => createLoop st req actor existingInst rest

/-- `TBookingManager::CreateBooking` from `src/BookingManager.cpp`.
`Except.error` models the thrown `Access denied` (unreachable here since
`CanCreate` accepts every role); `.ok none` is the conflict outcome.
Command execution (`cmd->Execute()` on a fresh `TCreateBookingCommand`)
is inlined as `repoCreate`. -/
def createBooking (st : ManagerState) (req : TBooking) (actor : TUser) :
    Except String (Option Nat × ManagerState) :=
  if !canCreate actor then .error "Access denied: create"
  else
    match createLoop st req actor (existingInsts st.repo req) (candidateInsts req) with
    | some r => .ok r
    | none => .ok (commitCreate st req)

/-- `TBookingManager::CancelBooking` from `src/BookingManager.cpp`. -/
def cancelBooking (st : ManagerState) (id : Nat) (actor : TUser) :
    Except String (Bool × ManagerState) :=
  match repoGet st.repo id with
  | none => .ok (false, st)
  | some ob =>
    if !canCancel actor ob then .error "Access denied: cancel"
    else
      let pr := cmdExec (.remove id none) st.repo
      .ok (true, pushUndo { st with repo := pr.2 } pr.1)

/-- The recurrence object written by `TRepository::BookingToJson`
(`"type"` tag plus optional `"until"` seconds). -/
structure JsonRecurrence where
  rtype : Option Nat
  runtil : Option Int
deriving DecidableEq

/-- The snapshot document `TRepository::BookingToJson` produces for one
booking, with `Option` for every key `TRepository::FromJSON` probes with
`contains` before reading.  `startSec`/`endSec` are the `"start"`/`"end"`
keys (epoch seconds). -/
structure JsonBooking where
  id : Nat
  room_id : Nat
  user_id : Nat
  startSec : Int
  endSec : Int
  title : Option String
  description : Option String
  recurrence : Option JsonRecurrence
  attendees : Option (List Nat)
  resources : Option (List String)
deriving DecidableEq

/-- `static_cast<int>(TRecurrence::Type)`. -/
def recTypeTag : ERecType → Nat
  | .None => 0
  | .Daily => 1
  | .Weekly => 2

/-- `static_cast<TRecurrence::Type>(int)`.  The source cast is only ever
fed 0/1/2 on the round trip; other tags yield an out-of-range enum value
there and are mapped to `.None` here. -/
def recTypeOfTag : Nat → ERecType
  | 1 => .Daily
  | 2 => .Weekly
  | _ => .None

/-- `TRepository::BookingToJson` from `inc/Command.hpp` (which calls
`NBooking::ToJSON` and then appends recurrence, attendees, resources).
Note the source never writes `OwnerPriority`. -/
def BookingToJson (b : TBooking) : JsonBooking :=
  { id := b.Id
    room_id := b.RoomIdInternal
    user_id := b.UserIdInternal
    startSec := b.Start
    endSec := b.End
    title := some b.Title
    description := some b.Description
    recurrence := some { rtype := some (recTypeTag b.Recurrence.type), runtil := b.Recurrence.Until }
    attendees := some b.Attendees
    resources := some (b.Resources.map TResource.Id) }

/-- `TRepository::FromJSON` from `inc/Command.hpp` (which calls
`NBooking::FromJsonInternal` and then reads the optional recurrence,
attendees and resources sections), applied to a default-constructed
`TBooking` as in `TRepository::Reload`.  Note the source never reads
`OwnerPriority`, so it stays at its member initializer `0`. -/
def bookingFromJson (j : JsonBooking) : TBooking :=
  { Id := j.id
    RoomIdInternal := j.room_id
    UserIdInternal := j.user_id
    Start := j.startSec
    End := j.endSec
    Recurrence :=
      match j.recurrence with
      | none => ⟨.None, none⟩
      | some r => ⟨(match r.rtype with | some n => recTypeOfTag n | none => .None), r.runtil⟩
    Title := j.title.getD ""
    Description := j.description.getD ""
    Attendees := j.attendees.getD []
    Resources := (j.resources.getD []).map TResource.mk
    OwnerPriority := 0 }

/-!  ## Concrete fixtures

Mirrors the scenario of the repository's own test
`Strategy.PreemptAdminPreemptsUser` (`tests/booking_tests.cpp`), with the
test's `now()` baseline normalized to epoch second 0: a User (priority
10) books room 1 for `[0, 3600)`, then an Admin (priority 100) books
`[1800, 5460)` in the same room under the Preempt strategy. -/

def exUser : TUser := ⟨3, "user", .User, 10⟩

def exAdmin : TUser := ⟨1, "admin", .Admin, 100⟩

def exB1 : TBooking := ⟨0, 1, 3, 0, 3600, ⟨.None, none⟩, "title", "desc", [], [], 0⟩

def exB2 : TBooking := ⟨0, 1, 1, 1800, 5460, ⟨.None, none⟩, "title", "desc", [], [], 0⟩

def exSt0 : ManagerState := ⟨[], .Preempt, [], []⟩

/-- State after the User's create: booking stored under id 1. -/
def exSt1 : ManagerState :=
  ⟨[{ exB1 with Id := 1 }], .Preempt, [.create { exB1 with Id := 1 } true], []⟩

/-- State after the Admin's create, as the code actually leaves it: the
User's booking 1 is still live and the Admin's got id 2. -/
def exSt2 : ManagerState :=
  ⟨[{ exB1 with Id := 1 }, { exB2 with Id := 2 }], .Preempt,
    [.create { exB1 with Id := 1 } true, .create { exB2 with Id := 2 } true], []⟩

/-- A one-booking state under the Reject strategy, for conflict-abort
scenarios. -/
def exStR : ManagerState := ⟨[{ exB1 with Id := 1 }], .Reject, [], []⟩

/-- A Daily recurring booking `[0, 3600)` with `until` 48h out. -/
def exB6 : TBooking := ⟨0, 1, 3, 0, 3600, ⟨.Daily, some 172800⟩, "t", "d", [], [], 0⟩

/-- A Weekly recurring booking `[0, 3600)` with `until` one week out. -/
def exB7 : TBooking := ⟨0, 1, 3, 0, 3600, ⟨.Weekly, some 604800⟩, "t", "d", [], [], 0⟩

/-- A two-booking repository with identifiers 1 and 5. -/
def exRepo2 : Repo := [{ exB1 with Id := 1 }, { exB6 with Id := 5 }]

/-- A sample command for history-stack scenarios. -/
def exCmd : Command := .create { exB1 with Id := 1 } true

/-- A state whose undo stack is at the 300-command capacity. -/
def exStFull : ManagerState := ⟨[], .Reject, List.replicate 300 exCmd, []⟩

/-!  ## Claim C5 — the interval overlap test  -/

theorem IntervalsOverlap_eq_true_iff (aS aE bS bE : Int) :
    IntervalsOverlap aS aE bS bE = true ↔ (bS < aE ∧ aS < bE) := by
  simp [IntervalsOverlap]

/-- C5: for all instants, `IntervalsOverlap` computes
`!(aEnd <= bStart || aStart >= bEnd)`; it is symmetric in the two
intervals; and exactly-touching half-open intervals (`aEnd = bStart` or
`bEnd = aStart`) never overlap. -/
theorem overlap_formula_symm_touching (aS aE bS bE : Int) :
    IntervalsOverlap aS aE bS bE = !(decide (aE ≤ bS) || decide (aS ≥ bE)) ∧
    IntervalsOverlap aS aE bS bE = IntervalsOverlap bS bE aS aE ∧
    IntervalsOverlap aS bS bS bE = false ∧
    IntervalsOverlap aS aE aE bE = false := by
  refine ⟨rfl, ?_, ?_, ?_⟩
  · rw [Bool.eq_iff_iff]
    simp [IntervalsOverlap]
    tauto
  · simp [IntervalsOverlap]
  · simp [IntervalsOverlap]

/-!  ## Claim C9 — snapshot round trip  -/

theorem recTypeOfTag_recTypeTag (t : ERecType) : recTypeOfTag (recTypeTag t) = t := by
  cases t <;> rfl

theorem resources_roundtrip (l : List TResource) :
    l.map (TResource.mk ∘ TResource.Id) = l := by
  induction l with
  | nil => rfl
  | cons r rest ih => simp [ih]

/-- C9 counterexample: a booking with a non-zero owner-priority snapshot
does not survive the snapshot round trip — `OwnerPriority` is neither
written by `BookingToJson` nor read by `FromJSON`. -/
theorem snapshot_roundtrip_cex :
    bookingFromJson (BookingToJson
        ⟨4, 1, 3, 0, 3600, ⟨.Daily, some 7200⟩, "t", "d", [5], [⟨"projector-1"⟩], 7⟩) ≠
      ⟨4, 1, 3, 0, 3600, ⟨.Daily, some 7200⟩, "t", "d", [5], [⟨"projector-1"⟩], 7⟩ := by
  decide

/-- C9 amended: serializing a booking into the snapshot and deserializing
it back restores every field except `OwnerPriority`, which resets to the
default `0`: identifier, room, user, start, end, title, description,
recurrence (type and until), attendees and resources all round-trip. -/
theorem snapshot_roundtrip (b : TBooking) :
    bookingFromJson (BookingToJson b) = { b with OwnerPriority := 0 } := by
  cases b with
  | mk id room user s e rec title desc att res prio =>
    cases rec with
    | mk rt ru =>
      simp [BookingToJson, bookingFromJson, recTypeOfTag_recTypeTag, resources_roundtrip]

/-!  ## Repository lookup lemmas  -/

theorem find?_replace (i : Nat) (nb : TBooking) (hnb : nb.Id = i) :
    ∀ repo : Repo, repo.any (fun x => x.Id == i) = true →
      (repo.map (fun x => if x.Id == i then nb else x)).find? (fun x => x.Id == i) = some nb := by
  intro repo
  induction repo with
  | nil => simp
  | cons x rest ih =>
    intro h
    by_cases hx : x.Id = i
    · simp [List.find?_cons, hx, hnb]
    · simp only [List.any_cons, Bool.or_eq_true, beq_iff_eq] at h
      rcases h with h | h
      · exact absurd h hx
      · simp only [List.map_cons]
        rw [if_neg (show ¬(x.Id == i) = true by simpa using hx),
          List.find?_cons_of_neg _ (by simpa using hx)]
        exact ih h

theorem find?_append_new (i : Nat) (nb : TBooking) (hnb : nb.Id = i) :
    ∀ repo : Repo, repo.any (fun x => x.Id == i) = false →
      (repo ++ [nb]).find? (fun x => x.Id == i) = some nb := by
  intro repo
  induction repo with
  | nil => simp [List.find?_cons, hnb]
  | cons x rest ih =>
    intro h
    simp only [List.any_cons, Bool.or_eq_false_iff, beq_eq_false_iff_ne] at h
    rw [List.cons_append, List.find?_cons_of_neg _ (by simpa using h.1)]
    exact ih (by simpa using h.2)

/-- Looking up the just-assigned key after an `unordered_map` assignment
returns the assigned booking. -/
theorem repoGet_mapAssign (repo : Repo) (nb : TBooking) :
    repoGet (mapAssign repo nb) nb.Id = some nb := by
  unfold repoGet mapAssign
  by_cases h : repo.any (fun x => x.Id == nb.Id) = true
  · rw [if_pos h]
    exact find?_replace nb.Id nb rfl repo h
  · rw [if_neg h]
    exact find?_append_new nb.Id nb rfl repo (Bool.eq_false_iff.mpr h)

/-- `CanCreate` accepts every role, so the `Access denied: create` throw
in `CreateBooking` is unreachable. -/
theorem canCreate_true (actor : TUser) : canCreate actor = true := by
  rcases actor with ⟨i, n, r, p⟩
  cases r <;> rfl

/-- Every early return of the candidate-occurrence loop is either the
conflict abort `(none, st)` (state untouched) or the immediate commit of
a suggested-start adjustment of the request. -/
theorem createLoop_spec (st : ManagerState) (req : TBooking) (actor : TUser)
    (ex : List TBooking) :
    ∀ l r st', createLoop st req actor ex l = some (r, st') →
      (r = none ∧ st' = st) ∨
      (∃ s : Int, (r, st') = commitCreate st
        { req with Start := s, End := s + (req.End - req.Start) }) := by
  intro l
  induction l with
  | nil => intro r st' h; exact absurd h (by simp [createLoop])
  | cons inst rest ih =>
    intro r st' h
    rw [createLoop] at h
    by_cases hok : (resolve st.strat inst ex actor).ok = true
    · rw [hok] at h
      simp only [Bool.not_true, Bool.false_eq_true, if_false] at h
      rcases hs : (resolve st.strat inst ex actor).SuggestedStart with _ | s
      · rw [hs] at h
        exact ih r st' h
      · rw [hs] at h
        simp only [Option.some.injEq] at h
        right
        exact ⟨s, h.symm⟩
    · rw [Bool.eq_false_iff.mpr hok] at h
      simp only [Bool.not_false, if_true, Option.some.injEq, Prod.mk.injEq] at h
      left
      exact ⟨h.1.symm, h.2.symm⟩

/-- Every `.ok` outcome of `CreateBooking` is the untouched conflict
abort or a commit of the request (possibly start-shifted, duration
preserved). -/
theorem createBooking_cases (st : ManagerState) (req : TBooking) (actor : TUser)
    (r : Option Nat) (st' : ManagerState)
    (h : createBooking st req actor = .ok (r, st')) :
    (r = none ∧ st' = st) ∨
    (∃ b : TBooking, b.RoomIdInternal = req.RoomIdInternal ∧
      b.UserIdInternal = req.UserIdInternal ∧ b.OwnerPriority = req.OwnerPriority ∧
      b.End - b.Start = req.End - req.Start ∧
      (r, st') = commitCreate st b) := by
  rw [createBooking, canCreate_true, Bool.not_true] at h
  simp only [Bool.false_eq_true, if_false] at h
  rcases hl : createLoop st req actor (existingInsts st.repo req) (candidateInsts req) with
    _ | ⟨r₀, st₀⟩
  · rw [hl] at h
    simp only [Except.ok.injEq] at h
    right
    exact ⟨req, rfl, rfl, rfl, rfl, h.symm⟩
  · rw [hl] at h
    simp only [Except.ok.injEq, Prod.mk.injEq] at h
    obtain ⟨hr, hs⟩ := h
    subst hr
    subst hs
    rcases createLoop_spec st req actor _ _ r₀ st₀ hl with ⟨h1, h2⟩ | ⟨s, hc⟩
    · left
      exact ⟨h1, h2⟩
    · right
      refine ⟨{ req with Start := s, End := s + (req.End - req.Start) }, rfl, rfl, rfl, ?_, hc⟩
      simp

/-!  ## Claim C2 — owner-priority snapshot  -/

/-- C2 counterexample: a User with priority 10 creates a booking whose
request carries the default owner-priority 0 (as every caller in the
repository does); the stored booking's owner-priority is 0, not the
actor's 10 — `CreateBooking` never copies the actor's priority. -/
theorem ownerPriority_snapshot_cex :
    createBooking ⟨[], .Reject, [], []⟩
        ⟨0, 1, 3, 0, 3600, ⟨.None, none⟩, "title", "desc", [], [], 0⟩
        ⟨3, "user", .User, 10⟩ =
      .ok (some 1,
        ⟨[⟨1, 1, 3, 0, 3600, ⟨.None, none⟩, "title", "desc", [], [], 0⟩], .Reject,
          [.create ⟨1, 1, 3, 0, 3600, ⟨.None, none⟩, "title", "desc", [], [], 0⟩ true], []⟩) ∧
    (repoGet [⟨1, 1, 3, 0, 3600, ⟨.None, none⟩, "title", "desc", [], [], (0 : Int)⟩] 1).map
        TBooking.OwnerPriority = some 0 ∧
    (⟨3, "user", .User, 10⟩ : TUser).Priority = 10 := by
  refine ⟨rfl, rfl, rfl⟩

/-- C2 amended: for every booking successfully created through
`CreateBooking`, the stored booking's owner-priority equals the owner
priority carried by the submitted request, unchanged; the engine never
snapshots the acting user's priority into it. -/
theorem ownerPriority_stored (st : ManagerState) (req : TBooking) (actor : TUser)
    (id : Nat) (st' : ManagerState)
    (h : createBooking st req actor = .ok (some id, st')) :
    (repoGet st'.repo id).map TBooking.OwnerPriority = some req.OwnerPriority := by
  rcases createBooking_cases st req actor (some id) st' h with ⟨h1, _⟩ | ⟨b, _, _, hprio, _, hc⟩
  · exact absurd h1 (by simp)
  · rw [commitCreate] at hc
    simp only [Prod.mk.injEq, Option.some.injEq] at hc
    rcases hc with ⟨hid, hst⟩
    subst hid
    subst hst
    have hg := repoGet_mapAssign st.repo { b with Id := (maxId st.repo + 1) % U64 }
    show ((repoGet (mapAssign st.repo { b with Id := (maxId st.repo + 1) % U64 })
        ((maxId st.repo + 1) % U64)).map TBooking.OwnerPriority) = some req.OwnerPriority
    rw [show ({ b with Id := (maxId st.repo + 1) % U64 } : TBooking).Id =
      (maxId st.repo + 1) % U64 from rfl] at hg
    rw [hg]
    simp [hprio]

/-- Witness for `ownerPriority_stored` at a concrete input. -/
theorem ownerPriority_stored_witness :
    (repoGet
        (match createBooking ⟨[], .Reject, [], []⟩
            ⟨0, 1, 3, 0, 3600, ⟨.None, none⟩, "title", "desc", [], [], 5⟩
            ⟨3, "user", .User, 10⟩ with
          | .ok (_, st) => st.repo
          | .error _ => []) 1).map TBooking.OwnerPriority = some 5 :=
  ownerPriority_stored ⟨[], .Reject, [], []⟩
    ⟨0, 1, 3, 0, 3600, ⟨.None, none⟩, "title", "desc", [], [], 5⟩
    ⟨3, "user", .User, 10⟩ 1 _ rfl

/-!  ## Claim C1 — preemption execution  -/

/-- C1 failing input, mirroring the repository's own test
`Strategy.PreemptAdminPreemptsUser`: the Preempt strategy's resolution
for the Admin's candidate is ok with `ToPreempt = [1]`, yet
`CreateBooking` (which never reads `ToPreempt`) leaves the User's
booking 1 in the repository and stores the Admin's booking under id 2 —
the test expects the preempted booking removed (and the new booking to
get id 1), and the spec requires the preempted booking to be absent. -/
theorem create_ignores_preemption_bug :
    createBooking exSt0 exB1 exUser = .ok (some 1, exSt1) ∧
    resolve .Preempt exB2 (existingInsts exSt1.repo exB2) exAdmin =
      ⟨true, some "Preempt allowed", none, [1]⟩ ∧
    createBooking exSt1 exB2 exAdmin = .ok (some 2, exSt2) ∧
    repoGet exSt2.repo 1 = some { exB1 with Id := 1 } := ⟨rfl, rfl, rfl, rfl⟩

/-!  ## Claim C3 — conflict aborts the whole create  -/

theorem rejectResolve_no_suggest (c : TBooking) :
    ∀ l, (rejectResolve c l).SuggestedStart = none := by
  intro l
  induction l with
  | nil => rfl
  | cons e rest ih =>
    rw [rejectResolve]
    split
    · rfl
    · exact ih

theorem autoBumpResolve_ok (b : TBooking) (l : List TBooking) :
    (autoBumpResolve b l).ok = true := by
  unfold autoBumpResolve
  dsimp only
  split <;> rfl

theorem preemptGo_no_suggest (c : TBooking) (a : TUser) :
    ∀ l acc, (preemptGo c a l acc).SuggestedStart = none := by
  intro l
  induction l with
  | nil => intro acc; rfl
  | cons e rest ih =>
    intro acc
    rw [preemptGo]
    split
    · exact ih acc
    · split
      · exact ih (acc ++ [e.Id])
      · rfl

theorem quorumResolve_no_suggest (q : Nat) (c : TBooking) :
    ∀ l, (quorumResolve q c l).SuggestedStart = none := by
  intro l
  induction l with
  | nil => rfl
  | cons e rest ih =>
    rw [quorumResolve]
    split
    · split <;> rfl
    · exact ih

/-- A strategy whose resolution can come back not-ok never produces a
suggested start (only AutoBump suggests, and AutoBump never fails) — so
an early suggested-start commit can never hide a later failing
occurrence. -/
theorem resolve_can_fail_no_suggest (s : Strategy) (c : TBooking) (ex : List TBooking)
    (a : TUser) (h : (resolve s c ex a).ok = false) :
    ∀ c' ex' a', (resolve s c' ex' a').SuggestedStart = none := by
  intro c' ex' a'
  cases s with
  | Reject => exact rejectResolve_no_suggest c' ex'
  | AutoBump => exact absurd (autoBumpResolve_ok c ex) (by simp [resolve] at h; simp [h])
  | Preempt => exact preemptGo_no_suggest c' a' ex' []
  | Quorum q => exact quorumResolve_no_suggest q c' ex'

theorem createLoop_fail (st : ManagerState) (req : TBooking) (actor : TUser)
    (ex : List TBooking) :
    ∀ l inst, inst ∈ l → (resolve st.strat inst ex actor).ok = false →
      createLoop st req actor ex l = some (none, st) := by
  intro l
  induction l with
  | nil => intro inst hmem; exact absurd hmem (List.not_mem_nil inst)
  | cons a rest ih =>
    intro inst hmem hfail
    by_cases hok : (resolve st.strat a ex actor).ok = true
    · have hne : inst ≠ a := by
        intro he
        rw [he, hok] at hfail
        exact Bool.true_eq_false.mp hfail
      have hsugg : (resolve st.strat a ex actor).SuggestedStart = none :=
        resolve_can_fail_no_suggest st.strat inst ex actor hfail a ex actor
      rw [createLoop, hok]
      simp only [Bool.not_true, Bool.false_eq_true, if_false]
      rw [hsugg]
      rcases List.mem_cons.mp hmem with he | hm
      · exact absurd he hne
      · exact ih inst hm hfail
    · rw [createLoop, Bool.eq_false_iff.mpr hok]
      simp

/-- C3: if the active strategy's resolution for any candidate occurrence
has `ok = false`, `CreateBooking` returns the empty result (an `.ok none`
outcome, not an error) with the state — in particular the live booking
set — exactly as it was; and any empty result leaves the state
untouched (no partial commit). -/
theorem conflict_abort_no_partial_commit (st : ManagerState) (req : TBooking) (actor : TUser) :
    (∀ st', createBooking st req actor = .ok (none, st') → st' = st) ∧
    (∀ inst ∈ candidateInsts req,
      (resolve st.strat inst (existingInsts st.repo req) actor).ok = false →
      createBooking st req actor = .ok (none, st)) := by
  constructor
  · intro st' h
    rcases createBooking_cases st req actor none st' h with ⟨_, h2⟩ | ⟨b, _, _, _, _, hc⟩
    · exact h2
    · rw [commitCreate] at hc
      simp only [Prod.mk.injEq] at hc
      exact absurd hc.1 (by simp)
  · intro inst hmem hfail
    rw [createBooking, canCreate_true, Bool.not_true]
    simp only [Bool.false_eq_true, if_false]
    rw [createLoop_fail st req actor (existingInsts st.repo req) (candidateInsts req) inst
      hmem hfail]

/-- Witness for `conflict_abort_no_partial_commit`: a Reject-strategy
conflict on a concrete overlapping request aborts with the state
unchanged. -/
theorem conflict_abort_no_partial_commit_witness :
    exB2 ∈ candidateInsts exB2 ∧
    (resolve exStR.strat exB2 (existingInsts exStR.repo exB2) exUser).ok = false ∧
    createBooking exStR exB2 exUser = .ok (none, exStR) :=
  ⟨by decide, by decide,
    (conflict_abort_no_partial_commit exStR exB2 exUser).2 exB2 (by decide) (by decide)⟩

/-!  ## Claim C4 — bounded undo history  -/

theorem pushCapped_length (stack : List Command) (cmd : Command)
    (h : stack.length ≤ 300) :
    (pushCapped stack cmd).length = min (stack.length + 1) 300 := by
  unfold pushCapped
  by_cases hl : (stack ++ [cmd]).length > 300
  · rw [if_pos hl]
    rw [List.length_tail]
    simp only [List.length_append, List.length_cons, List.length_nil] at hl ⊢
    omega
  · rw [if_neg hl]
    simp only [List.length_append, List.length_cons, List.length_nil] at hl ⊢
    omega

theorem pushCapped_fifo (stack : List Command) (cmd : Command)
    (h : stack.length = 300) :
    pushCapped stack cmd = stack.tail ++ [cmd] := by
  match stack, h with
  | x :: rest, h =>
    unfold pushCapped
    rw [if_pos]
    · rfl
    · simp only [List.length_append, List.length_cons, List.length_nil]
      simp only [List.length_cons] at h
      omega

theorem createBooking_pushes (st : ManagerState) (req : TBooking) (actor : TUser)
    (id : Nat) (st' : ManagerState)
    (h : createBooking st req actor = .ok (some id, st')) :
    ∃ c, st'.undoStack = pushCapped st.undoStack c ∧ st'.redoStack = [] := by
  rcases createBooking_cases st req actor (some id) st' h with ⟨h1, _⟩ | ⟨b, _, _, _, _, hc⟩
  · exact absurd h1 (by simp)
  · rw [commitCreate] at hc
    simp only [Prod.mk.injEq, Option.some.injEq] at hc
    rcases hc with ⟨_, hst⟩
    subst hst
    exact ⟨_, rfl, rfl⟩

theorem undoStep_nil (st : ManagerState) (h : st.undoStack = []) :
    undoStep st = (none, st) := by
  unfold undoStep
  rw [h]
  rfl

theorem foldl_pushCapped_length (cmds : List Command) :
    ∀ stack : List Command, stack.length ≤ 300 →
      (cmds.foldl pushCapped stack).length = min (stack.length + cmds.length) 300 := by
  induction cmds with
  | nil => intro stack h; simp; omega
  | cons c rest ih =>
    intro stack h
    rw [List.foldl_cons]
    have h1 := pushCapped_length stack c h
    have h2 := ih (pushCapped stack c) (by omega)
    rw [h2, h1]
    simp only [List.length_cons]
    omega

theorem undoCount_eq (n : Nat) : ∀ st : ManagerState,
    undoCount n st = min n st.undoStack.length := by
  induction n with
  | zero => intro st; simp [undoCount]
  | succ n ih =>
    intro st
    rcases h : st.undoStack.getLast? with _ | cmd
    · have : st.undoStack = [] := by
        rwa [List.getLast?_eq_none_iff] at h
      rw [undoCount, undoStep_nil st this, this]
      simp
    · have hne : st.undoStack ≠ [] := by
        intro he
        rw [he] at h
        exact absurd h (by simp)
      rw [undoCount]
      unfold undoStep
      rw [h]
      simp only []
      rw [ih]
      simp only [List.length_dropLast]
      have : 0 < st.undoStack.length := List.length_pos.mpr hne
      omega

/-- C4: the undo stack never exceeds 300 commands — a push at capacity
evicts the oldest entry (FIFO) — every successful create pushes exactly
one command (clearing redo), n sequential pushes from a legal stack leave
`min (len + n) 300` commands, `Undo` on an empty stack is the empty
"nothing to do" result, and n repeated `Undo` calls succeed exactly
`min n (stack length)` times.  Hence after more than 300 sequential
successful creates, `Undo` succeeds exactly 300 times and then reports
nothing to do. -/
theorem undo_stack_capacity (st : ManagerState) (cmd : Command) (cmds : List Command)
    (req : TBooking) (actor : TUser) :
    (st.undoStack.length ≤ 300 →
      (pushUndo st cmd).undoStack.length = min (st.undoStack.length + 1) 300) ∧
    (st.undoStack.length = 300 →
      (pushUndo st cmd).undoStack = st.undoStack.tail ++ [cmd]) ∧
    (∀ id st', createBooking st req actor = .ok (some id, st') →
      ∃ c, st'.undoStack = pushCapped st.undoStack c ∧ st'.redoStack = []) ∧
    (st.undoStack.length ≤ 300 →
      (cmds.foldl pushCapped st.undoStack).length = min (st.undoStack.length + cmds.length) 300) ∧
    (st.undoStack = [] → undoStep st = (none, st)) ∧
    (∀ n, undoCount n st = min n st.undoStack.length) :=
  ⟨fun h => pushCapped_length st.undoStack cmd h,
   fun h => pushCapped_fifo st.undoStack cmd h,
   fun id st' h => createBooking_pushes st req actor id st' h,
   fun h => foldl_pushCapped_length cmds st.undoStack h,
   undoStep_nil st,
   fun n => undoCount_eq n st⟩

/-- Witness for `undo_stack_capacity` at concrete inputs (a full
300-command stack, a fresh state, and the concrete create of `exB1`). -/
theorem undo_stack_capacity_witness :
    (pushUndo exStFull exCmd).undoStack.length = min (exStFull.undoStack.length + 1) 300 ∧
    (pushUndo exStFull exCmd).undoStack = exStFull.undoStack.tail ++ [exCmd] ∧
    (∃ c, exSt1.undoStack = pushCapped exSt0.undoStack c ∧ exSt1.redoStack = []) ∧
    ((List.replicate 301 exCmd).foldl pushCapped exSt0.undoStack).length =
      min (exSt0.undoStack.length + (List.replicate 301 exCmd).length) 300 ∧
    undoStep exSt0 = (none, exSt0) ∧
    undoCount 301 exStFull = min 301 exStFull.undoStack.length := by
  have t1 := undo_stack_capacity exStFull exCmd (List.replicate 301 exCmd) exB1 exUser
  have t0 := undo_stack_capacity exSt0 exCmd (List.replicate 301 exCmd) exB1 exUser
  have hlen : exStFull.undoStack.length = 300 := by
    rw [show exStFull.undoStack = List.replicate 300 exCmd from rfl, List.length_replicate]
  refine ⟨t1.1 ?_, t1.2.1 hlen, t0.2.2.1 1 exSt1 rfl, t0.2.2.2.1 ?_, t0.2.2.2.2.1 rfl,
    t1.2.2.2.2.2 301⟩
  · rw [hlen]
  · show ([] : List Command).length ≤ 300
    simp

/-!  ## Claim C6 — recurrence expansion  -/

theorem generateLoop_eq (b : TBooking) (dur step limit f t : Int) :
    ∀ fuel cur, generateLoop b dur step limit f t cur fuel =
      ((stepStarts step limit cur fuel).map
        (fun s => { b with Start := s, End := s + dur })).filter
        (fun o => IntervalsOverlap o.Start o.End f t) := by
  intro fuel
  induction fuel with
  | zero => intro cur; rfl
  | succ fuel ih =>
    intro cur
    rw [generateLoop, stepStarts]
    by_cases h : cur < limit
    · rw [if_pos h, if_pos h, List.map_cons, List.filter_cons]
      simp only [show ({ b with Start := cur, End := cur + dur } : TBooking).Start = cur from rfl,
        show ({ b with Start := cur, End := cur + dur } : TBooking).End = cur + dur from rfl]
      rw [ih (cur + step)]
    · rw [if_neg h, if_neg h]
      rfl

theorem stepStarts_length (step limit : Int) :
    ∀ fuel cur, (stepStarts step limit cur fuel).length ≤ fuel := by
  intro fuel
  induction fuel with
  | zero => intro cur; simp [stepStarts]
  | succ fuel ih =>
    intro cur
    rw [stepStarts]
    by_cases h : cur < limit
    · rw [if_pos h]
      simpa using ih (cur + step)
    · rw [if_neg h]
      simp

theorem mem_stepStarts_lt (step limit : Int) :
    ∀ fuel cur s, s ∈ stepStarts step limit cur fuel → s < limit := by
  intro fuel
  induction fuel with
  | zero => intro cur s h; exact absurd h (List.not_mem_nil s)
  | succ fuel ih =>
    intro cur s h
    rw [stepStarts] at h
    by_cases hc : cur < limit
    · rw [if_pos hc] at h
      rcases List.mem_cons.mp h with he | hm
      · rwa [he]
      · exact ih (cur + step) s hm
    · rw [if_neg hc] at h
      exact absurd h (List.not_mem_nil s)

theorem genInst_daily (b : TBooking) (f t : Int) (h : b.Recurrence.type = .Daily) :
    GenerateInstances b f t =
      ((stepStarts (hours 24) (recLimit b t) b.Start 10000).map
        (fun s => { b with Start := s, End := s + (b.End - b.Start) })).filter
        (fun o => IntervalsOverlap o.Start o.End f t) := by
  simp only [GenerateInstances, h]
  exact generateLoop_eq b (b.End - b.Start) (hours 24) (recLimit b t) f t 10000 b.Start

theorem genInst_weekly (b : TBooking) (f t : Int) (h : b.Recurrence.type = .Weekly) :
    GenerateInstances b f t =
      ((stepStarts (hours (24 * 7)) (recLimit b t) b.Start 10000).map
        (fun s => { b with Start := s, End := s + (b.End - b.Start) })).filter
        (fun o => IntervalsOverlap o.Start o.End f t) := by
  simp only [GenerateInstances, h]
  exact generateLoop_eq b (b.End - b.Start) (hours (24 * 7)) (recLimit b t) f t 10000 b.Start

theorem genInst_none (b : TBooking) (f t : Int) (h : b.Recurrence.type = .None) :
    GenerateInstances b f t = if IntervalsOverlap b.Start b.End f t then [b] else [] := by
  simp only [GenerateInstances, h]

theorem genInst_basic (b : TBooking) (f t : Int) :
    (∀ inst ∈ GenerateInstances b f t, inst.End - inst.Start = b.End - b.Start) ∧
    (∀ inst ∈ GenerateInstances b f t, IntervalsOverlap inst.Start inst.End f t = true) ∧
    (GenerateInstances b f t).length ≤ 10000 := by
  rcases hty : b.Recurrence.type with _ | _ | _
  · rw [genInst_none b f t hty]
    by_cases ho : IntervalsOverlap b.Start b.End f t = true
    · rw [if_pos ho]
      refine ⟨?_, ?_, by simp⟩
      · intro inst hmem
        rw [List.mem_singleton.mp hmem]
      · intro inst hmem
        rw [List.mem_singleton.mp hmem]
        exact ho
    · rw [if_neg (by simpa using ho)]
      exact ⟨by simp, by simp, by simp⟩
  · rw [genInst_daily b f t hty]
    refine ⟨?_, fun inst hmem => (List.mem_filter.mp hmem).2, ?_⟩
    · intro inst hmem
      rcases List.mem_map.mp (List.mem_filter.mp hmem).1 with ⟨s, _, hg⟩
      rw [← hg]
      simp
    · calc (((stepStarts (hours 24) (recLimit b t) b.Start 10000).map _).filter _).length
          ≤ ((stepStarts (hours 24) (recLimit b t) b.Start 10000).map _).length :=
            List.length_filter_le _ _
        _ = (stepStarts (hours 24) (recLimit b t) b.Start 10000).length := List.length_map _ _
        _ ≤ 10000 := stepStarts_length _ _ 10000 b.Start
  · rw [genInst_weekly b f t hty]
    refine ⟨?_, fun inst hmem => (List.mem_filter.mp hmem).2, ?_⟩
    · intro inst hmem
      rcases List.mem_map.mp (List.mem_filter.mp hmem).1 with ⟨s, _, hg⟩
      rw [← hg]
      simp
    · calc (((stepStarts (hours (24 * 7)) (recLimit b t) b.Start 10000).map _).filter _).length
          ≤ ((stepStarts (hours (24 * 7)) (recLimit b t) b.Start 10000).map _).length :=
            List.length_filter_le _ _
        _ = (stepStarts (hours (24 * 7)) (recLimit b t) b.Start 10000).length :=
            List.length_map _ _
        _ ≤ 10000 := stepStarts_length _ _ 10000 b.Start

theorem recLimit_min (b : TBooking) (t : Int) (u : Int) (h : b.Recurrence.Until = some u) :
    recLimit b t = min t u := by
  rw [recLimit, h]
  show (if u < t then u else t) = min t u
  by_cases hu : u < t
  · rw [if_pos hu, min_eq_right (le_of_lt hu)]
  · rw [if_neg hu, min_eq_left (le_of_not_lt hu)]

/-- C6: every occurrence produced by `GenerateInstances` keeps the
original duration `End - Start`; every emitted occurrence overlaps the
window, and for recurring bookings the output is exactly the window
filter of the step sequence (a step's occurrence is emitted iff it
overlaps); the expansion performs at most 10000 steps; and the step
sequence stops strictly below the limit, which is the minimum of the
window end and the recurrence's `until` bound. -/
theorem recurrence_expansion_spec (b : TBooking) (f t : Int) :
    (∀ inst ∈ GenerateInstances b f t, inst.End - inst.Start = b.End - b.Start) ∧
    (∀ inst ∈ GenerateInstances b f t, IntervalsOverlap inst.Start inst.End f t = true) ∧
    (GenerateInstances b f t).length ≤ 10000 ∧
    (b.Recurrence.type = .Daily →
      GenerateInstances b f t =
        ((stepStarts (hours 24) (recLimit b t) b.Start 10000).map
          (fun s => { b with Start := s, End := s + (b.End - b.Start) })).filter
          (fun o => IntervalsOverlap o.Start o.End f t)) ∧
    (b.Recurrence.type = .Weekly →
      GenerateInstances b f t =
        ((stepStarts (hours (24 * 7)) (recLimit b t) b.Start 10000).map
          (fun s => { b with Start := s, End := s + (b.End - b.Start) })).filter
          (fun o => IntervalsOverlap o.Start o.End f t)) ∧
    (∀ (step limit cur : Int) (fuel : Nat), ∀ s ∈ stepStarts step limit cur fuel, s < limit) ∧
    (∀ u, b.Recurrence.Until = some u → recLimit b t = min t u) :=
  ⟨(genInst_basic b f t).1, (genInst_basic b f t).2.1, (genInst_basic b f t).2.2,
   genInst_daily b f t, genInst_weekly b f t,
   fun step limit cur fuel s hs => mem_stepStarts_lt step limit fuel cur s hs,
   fun u hu => recLimit_min b t u hu⟩

/-- Witness for `recurrence_expansion_spec` on the concrete Daily booking
`exB6` (and Weekly `exB7`) over the window `[0, 72h)`. -/
theorem recurrence_expansion_spec_witness :
    ({ exB6 with Start := 86400, End := 90000 } : TBooking) ∈
      GenerateInstances exB6 0 (hours 72) ∧
    ({ exB6 with Start := 86400, End := 90000 } : TBooking).End -
        ({ exB6 with Start := 86400, End := 90000 } : TBooking).Start =
      exB6.End - exB6.Start ∧
    IntervalsOverlap ({ exB6 with Start := 86400, End := 90000 } : TBooking).Start
      ({ exB6 with Start := 86400, End := 90000 } : TBooking).End 0 (hours 72) = true ∧
    GenerateInstances exB6 0 (hours 72) =
      ((stepStarts (hours 24) (recLimit exB6 (hours 72)) exB6.Start 10000).map
        (fun s => { exB6 with Start := s, End := s + (exB6.End - exB6.Start) })).filter
        (fun o => IntervalsOverlap o.Start o.End 0 (hours 72)) ∧
    GenerateInstances exB7 0 (hours 72) =
      ((stepStarts (hours (24 * 7)) (recLimit exB7 (hours 72)) exB7.Start 10000).map
        (fun s => { exB7 with Start := s, End := s + (exB7.End - exB7.Start) })).filter
        (fun o => IntervalsOverlap o.Start o.End 0 (hours 72)) ∧
    (86400 : Int) < 172800 ∧
    recLimit exB6 (hours 72) = min (hours 72) 172800 :=
  ⟨by decide,
   (recurrence_expansion_spec exB6 0 (hours 72)).1 _ (by decide),
   (recurrence_expansion_spec exB6 0 (hours 72)).2.1 _ (by decide),
   (recurrence_expansion_spec exB6 0 (hours 72)).2.2.2.1 rfl,
   (recurrence_expansion_spec exB7 0 (hours 72)).2.2.2.2.1 rfl,
   (recurrence_expansion_spec exB6 0 (hours 72)).2.2.2.2.2.1 86400 172800 0 10000 86400
     (by decide),
   (recurrence_expansion_spec exB6 0 (hours 72)).2.2.2.2.2.2 172800 rfl⟩

/-!  ## Claim C7 — AutoBump termination and correctness  -/

theorem bumpHit_lt (dur s : Int) (e : TBooking) (h : bumpHit dur s e = true) :
    s < e.End := by
  simp [bumpHit] at h
  exact h.2

theorem bumpPass_cons (dur : Int) (e : TBooking) (rest : List TBooking) (s : Int) :
    bumpPass dur (e :: rest) s =
      bumpPass dur rest (if bumpHit dur s e then e.End else s) := rfl

theorem bumpPass_ge (dur : Int) :
    ∀ (ex : List TBooking) (s : Int), s ≤ bumpPass dur ex s := by
  intro ex
  induction ex with
  | nil => intro s; exact le_refl s
  | cons e rest ih =>
    intro s
    rw [bumpPass_cons]
    by_cases h : bumpHit dur s e = true
    · rw [if_pos h]
      exact le_trans (le_of_lt (bumpHit_lt dur s e h)) (ih e.End)
    · rw [if_neg h]
      exact ih s

theorem bumpPass_fix_noHit (dur : Int) :
    ∀ (ex : List TBooking) (s : Int), bumpPass dur ex s = s →
      ∀ e ∈ ex, bumpHit dur s e = false := by
  intro ex
  induction ex with
  | nil => intro s _ e he; exact absurd he (List.not_mem_nil e)
  | cons a rest ih =>
    intro s hfix e he
    rw [bumpPass_cons] at hfix
    by_cases h : bumpHit dur s a = true
    · rw [if_pos h] at hfix
      have h1 : s < a.End := bumpHit_lt dur s a h
      have h2 : a.End ≤ bumpPass dur rest a.End := bumpPass_ge dur rest a.End
      rw [hfix] at h2
      exact absurd (lt_of_lt_of_le h1 h2) (lt_irrefl s)
    · rw [if_neg h] at hfix
      rcases List.mem_cons.mp he with rfl | hm
      · exact Bool.eq_false_iff.mpr h
      · exact ih s hfix e hm

theorem bumpPass_mem_end (dur : Int) :
    ∀ (ex : List TBooking) (s : Int), bumpPass dur ex s ≠ s →
      ∃ e ∈ ex, bumpPass dur ex s = e.End := by
  intro ex
  induction ex with
  | nil => intro s h; exact absurd rfl h
  | cons a rest ih =>
    intro s h
    rw [bumpPass_cons] at h ⊢
    by_cases hh : bumpHit dur s a = true
    · rw [if_pos hh] at h ⊢
      by_cases hfix : bumpPass dur rest a.End = a.End
      · exact ⟨a, List.mem_cons_self a rest, hfix⟩
      · rcases ih a.End hfix with ⟨e, hm, he⟩
        exact ⟨e, List.mem_cons_of_mem a hm, he⟩
    · rw [if_neg hh] at h ⊢
      rcases ih s h with ⟨e, hm, he⟩
      exact ⟨e, List.mem_cons_of_mem a hm, he⟩

theorem filter_length_mono {α : Type} (p q : α → Bool) :
    ∀ l : List α, (∀ x ∈ l, p x = true → q x = true) →
      (l.filter p).length ≤ (l.filter q).length := by
  intro l
  induction l with
  | nil => intro _; exact le_refl 0
  | cons a rest ih =>
    intro himp
    have ihr := ih (fun x hx => himp x (List.mem_cons_of_mem a hx))
    rw [List.filter_cons, List.filter_cons]
    by_cases hp : p a = true
    · rw [if_pos hp, if_pos (himp a (List.mem_cons_self a rest) hp)]
      simpa using ihr
    · rw [if_neg hp]
      by_cases hq : q a = true
      · rw [if_pos hq]
        exact le_trans ihr (Nat.le_succ _)
      · rw [if_neg hq]
        exact ihr

theorem filter_length_strict {α : Type} (p q : α → Bool) :
    ∀ l : List α, (∀ x ∈ l, p x = true → q x = true) →
      ∀ x ∈ l, q x = true → p x = false →
        (l.filter p).length < (l.filter q).length := by
  intro l
  induction l with
  | nil => intro _ x hx; exact absurd hx (List.not_mem_nil x)
  | cons a rest ih =>
    intro himp x hx hq hp
    have himpr : ∀ y ∈ rest, p y = true → q y = true :=
      fun y hy => himp y (List.mem_cons_of_mem a hy)
    rw [List.filter_cons, List.filter_cons]
    rcases List.mem_cons.mp hx with rfl | hm
    · rw [if_neg (by rw [hp]; exact Bool.false_ne_true), if_pos hq]
      exact Nat.lt_succ_of_le (filter_length_mono p q rest himpr)
    · have ihr := ih himpr x hm hq hp
      by_cases hpa : p a = true
      · rw [if_pos hpa, if_pos (himp a (List.mem_cons_self a rest) hpa)]
        simpa using ihr
      · rw [if_neg hpa]
        by_cases hqa : q a = true
        · rw [if_pos hqa]
          exact Nat.lt_succ_of_lt ihr
        · rw [if_neg hqa]
          exact ihr

theorem bumpPass_measure_lt (dur : Int) (ex : List TBooking) (s : Int)
    (h : bumpPass dur ex s ≠ s) :
    (ex.filter (fun e => decide (bumpPass dur ex s < e.End))).length <
      (ex.filter (fun e => decide (s < e.End))).length := by
  have hgt : s < bumpPass dur ex s := lt_of_le_of_ne (bumpPass_ge dur ex s) (Ne.symm h)
  rcases bumpPass_mem_end dur ex s h with ⟨e0, hm, he0⟩
  refine filter_length_strict _ _ ex ?_ e0 hm ?_ ?_
  · intro x _ hx
    simp only [decide_eq_true_eq] at hx ⊢
    exact lt_trans hgt hx
  · simp only [decide_eq_true_eq]
    rw [← he0]
    exact hgt
  · simp only [decide_eq_false_iff_not]
    rw [he0]
    exact lt_irrefl e0.End

theorem autoBumpGo_fix (dur : Int) (ex : List TBooking) :
    ∀ (fuel : Nat) (s : Int),
      (ex.filter (fun e => decide (s < e.End))).length < fuel →
      bumpPass dur ex (autoBumpGo dur ex s fuel) = autoBumpGo dur ex s fuel := by
  intro fuel
  induction fuel with
  | zero => intro s h; exact absurd h (Nat.not_lt_zero _)
  | succ fuel ih =>
    intro s h
    rw [autoBumpGo]
    by_cases hfix : bumpPass dur ex s = s
    · rw [if_pos hfix]
      exact hfix
    · rw [if_neg hfix]
      apply ih
      have hlt := bumpPass_measure_lt dur ex s hfix
      omega

theorem autoBumpGo_result_fix (b : TBooking) (existing : List TBooking) :
    bumpPass (b.End - b.Start) existing
        (autoBumpGo (b.End - b.Start) existing b.Start (existing.length + 1)) =
      autoBumpGo (b.End - b.Start) existing b.Start (existing.length + 1) := by
  apply autoBumpGo_fix
  exact Nat.lt_succ_of_le (List.length_filter_le _ _)

/-- C7: for every candidate booking and finite list of existing
occurrences, the AutoBump fixed-point loop terminates — within
`existing.length + 1` passes it reaches a true fixed point of the scan
pass (the source loop exits with `moved == false`); the resolution is
always ok; the resulting start overlaps no existing occurrence; and a
suggested alternative start is reported exactly when the result differs
from the candidate's original start. -/
theorem autobump_terminates_no_overlap (b : TBooking) (existing : List TBooking) :
    (autoBumpResolve b existing).ok = true ∧
    bumpPass (b.End - b.Start) existing
        (autoBumpGo (b.End - b.Start) existing b.Start (existing.length + 1)) =
      autoBumpGo (b.End - b.Start) existing b.Start (existing.length + 1) ∧
    (∀ e ∈ existing,
      bumpHit (b.End - b.Start)
        (autoBumpGo (b.End - b.Start) existing b.Start (existing.length + 1)) e = false) ∧
    (autoBumpResolve b existing).SuggestedStart =
      (if autoBumpGo (b.End - b.Start) existing b.Start (existing.length + 1) = b.Start
       then none
       else some (autoBumpGo (b.End - b.Start) existing b.Start (existing.length + 1))) := by
  refine ⟨autoBumpResolve_ok b existing, autoBumpGo_result_fix b existing, ?_, ?_⟩
  · exact bumpPass_fix_noHit (b.End - b.Start) existing _ (autoBumpGo_result_fix b existing)
  · unfold autoBumpResolve
    dsimp only
    by_cases hne : autoBumpGo (b.End - b.Start) existing b.Start (existing.length + 1) = b.Start
    · rw [if_neg (by simpa using hne), if_pos hne]
    · rw [if_pos hne, if_neg hne]

/-- Witness for `autobump_terminates_no_overlap` on a concrete overlap:
`exB2` bumps past the stored `exB1`. -/
theorem autobump_terminates_no_overlap_witness :
    (autoBumpResolve exB2 [{ exB1 with Id := 1 }]).ok = true ∧
    bumpHit (exB2.End - exB2.Start)
      (autoBumpGo (exB2.End - exB2.Start) [{ exB1 with Id := 1 }] exB2.Start 2)
      { exB1 with Id := 1 } = false ∧
    (autoBumpResolve exB2 [{ exB1 with Id := 1 }]).SuggestedStart =
      (if autoBumpGo (exB2.End - exB2.Start) [{ exB1 with Id := 1 }] exB2.Start 2 = exB2.Start
       then none
       else some (autoBumpGo (exB2.End - exB2.Start) [{ exB1 with Id := 1 }] exB2.Start 2)) :=
  ⟨(autobump_terminates_no_overlap exB2 [{ exB1 with Id := 1 }]).1,
   (autobump_terminates_no_overlap exB2 [{ exB1 with Id := 1 }]).2.2.1 _ (by decide),
   (autobump_terminates_no_overlap exB2 [{ exB1 with Id := 1 }]).2.2.2⟩

/-!  ## Claim C8 — identifier assignment and uniqueness  -/

theorem maxId_init_le : ∀ (l : List TBooking) (a : Nat),
    a ≤ l.foldl (fun m b => max m b.Id) a := by
  intro l
  induction l with
  | nil => intro a; exact le_refl a
  | cons x rest ih =>
    intro a
    exact le_trans (Nat.le_max_left a x.Id) (ih (max a x.Id))

theorem maxId_mem : ∀ (l : List TBooking) (a : Nat) (x : TBooking), x ∈ l →
    x.Id ≤ l.foldl (fun m b => max m b.Id) a := by
  intro l
  induction l with
  | nil => intro a x hx; exact absurd hx (List.not_mem_nil x)
  | cons y rest ih =>
    intro a x hx
    rcases List.mem_cons.mp hx with rfl | hm
    · exact le_trans (Nat.le_max_right a x.Id) (maxId_init_le rest (max a x.Id))
    · exact ih (max a y.Id) x hm

theorem mem_le_maxId (repo : Repo) (x : TBooking) (hx : x ∈ repo) : x.Id ≤ maxId repo :=
  maxId_mem repo 0 x hx

theorem replace_ids (repo : Repo) (nb : TBooking) :
    (repo.map (fun x => if x.Id == nb.Id then nb else x)).map TBooking.Id =
      repo.map TBooking.Id := by
  induction repo with
  | nil => rfl
  | cons x front ih =>
    simp only [List.map_cons, ih]
    by_cases hx : x.Id = nb.Id
    · rw [if_pos (by simpa using hx), hx]
    · rw [if_neg (by simpa using hx)]

theorem mapAssign_ids_nodup (repo : Repo) (nb : TBooking)
    (h : (repo.map TBooking.Id).Nodup) :
    ((mapAssign repo nb).map TBooking.Id).Nodup := by
  unfold mapAssign
  by_cases ha : repo.any (fun x => x.Id == nb.Id) = true
  · rw [if_pos ha, replace_ids]
    exact h
  · rw [if_neg ha]
    rw [List.map_append]
    simp only [List.map_cons, List.map_nil]
    rw [List.nodup_append]
    refine ⟨h, List.nodup_singleton nb.Id, ?_⟩
    intro j hj hj2
    rcases List.mem_map.mp hj with ⟨x, hx, hid⟩
    have hnbj : nb.Id = j := by
      rcases List.mem_singleton.mp hj2 with rfl
      rfl
    have ha2 : repo.any (fun x => x.Id == nb.Id) = false := Bool.eq_false_iff.mpr ha
    rw [List.any_eq_false] at ha2
    exact ha2 x hx (by simp [hid, hnbj])

theorem repoRemove_ids_nodup (repo : Repo) (i : Nat)
    (h : (repo.map TBooking.Id).Nodup) :
    ((repoRemove repo i).map TBooking.Id).Nodup :=
  List.Nodup.sublist (List.Sublist.map TBooking.Id (List.filter_sublist repo)) h

theorem repoUpdate_ids_nodup (repo : Repo) (b : TBooking)
    (h : (repo.map TBooking.Id).Nodup) :
    ((repoUpdate repo b).map TBooking.Id).Nodup :=
  mapAssign_ids_nodup repo b h

theorem repoCreate_ids_nodup (repo : Repo) (b : TBooking)
    (h : (repo.map TBooking.Id).Nodup) :
    (((repoCreate repo b).2).map TBooking.Id).Nodup :=
  mapAssign_ids_nodup repo _ h

theorem cmd_ids_nodup (cmd : Command) (repo : Repo)
    (h : (repo.map TBooking.Id).Nodup) :
    (((cmdExec cmd repo).2).map TBooking.Id).Nodup ∧
    ((cmdUndo cmd repo).map TBooking.Id).Nodup := by
  constructor
  · rcases cmd with ⟨b, executed⟩ | ⟨bf, af⟩ | ⟨i, old⟩
    · rcases executed with _ | _
      · exact repoCreate_ids_nodup repo b h
      · exact repoUpdate_ids_nodup repo b h
    · exact repoUpdate_ids_nodup repo af h
    · rcases hg : repoGet repo i with _ | ob
      · simpa [cmdExec, hg] using h
      · simpa [cmdExec, hg] using repoRemove_ids_nodup repo i h
  · rcases cmd with ⟨b, executed⟩ | ⟨bf, af⟩ | ⟨i, old⟩
    · rcases executed with _ | _
      · simpa [cmdUndo] using h
      · simpa [cmdUndo] using repoRemove_ids_nodup repo b.Id h
    · exact repoUpdate_ids_nodup repo bf h
    · rcases old with _ | ob
      · simpa [cmdUndo] using h
      · simpa [cmdUndo] using repoCreate_ids_nodup repo ob h

/-- C8: the repository's create assigns the new booking the identifier
`max(existing ids) + 1` (as `uint64_t` arithmetic, exact whenever the
maximum is below `2^64 - 1`, i.e. always in practice), and create,
update, remove — and the command execute/undo paths that call them (the
undo/redo paths) — all preserve uniqueness of the live identifiers. -/
theorem repo_id_assignment_unique (repo : Repo) (b bu : TBooking) (i : Nat) :
    ((repoCreate repo b).1 = (maxId repo + 1) % U64) ∧
    (maxId repo < U64 - 1 → (repoCreate repo b).1 = maxId repo + 1) ∧
    ((repo.map TBooking.Id).Nodup → (((repoCreate repo b).2).map TBooking.Id).Nodup) ∧
    ((repo.map TBooking.Id).Nodup → ((repoUpdate repo bu).map TBooking.Id).Nodup) ∧
    ((repo.map TBooking.Id).Nodup → ((repoRemove repo i).map TBooking.Id).Nodup) ∧
    (∀ cmd : Command, (repo.map TBooking.Id).Nodup →
      (((cmdExec cmd repo).2).map TBooking.Id).Nodup ∧
      ((cmdUndo cmd repo).map TBooking.Id).Nodup) :=
  ⟨rfl,
   fun h => by
     show (maxId repo + 1) % U64 = maxId repo + 1
     exact Nat.mod_eq_of_lt (by omega),
   repoCreate_ids_nodup repo b,
   repoUpdate_ids_nodup repo bu,
   repoRemove_ids_nodup repo i,
   fun cmd h => cmd_ids_nodup cmd repo h⟩

/-- Witness for `repo_id_assignment_unique` on the concrete repository
`exRepo2` (identifiers 1 and 5): create assigns 6 = 5 + 1 and all
operations preserve identifier uniqueness. -/
theorem repo_id_assignment_unique_witness :
    (repoCreate exRepo2 exB2).1 = maxId exRepo2 + 1 ∧
    (((repoCreate exRepo2 exB2).2).map TBooking.Id).Nodup ∧
    ((repoUpdate exRepo2 exB2).map TBooking.Id).Nodup ∧
    ((repoRemove exRepo2 1).map TBooking.Id).Nodup ∧
    ((((cmdExec exCmd exRepo2).2).map TBooking.Id).Nodup ∧
      ((cmdUndo exCmd exRepo2).map TBooking.Id).Nodup) :=
  ⟨(repo_id_assignment_unique exRepo2 exB2 exB2 1).2.1 (by decide),
   (repo_id_assignment_unique exRepo2 exB2 exB2 1).2.2.1 (by decide),
   (repo_id_assignment_unique exRepo2 exB2 exB2 1).2.2.2.1 (by decide),
   (repo_id_assignment_unique exRepo2 exB2 exB2 1).2.2.2.2.1 (by decide),
   (repo_id_assignment_unique exRepo2 exB2 exB2 1).2.2.2.2.2 exCmd (by decide)⟩

/-!  ## Claim C10 — undo of a cancellation reassigns the identifier  -/

theorem mem_repoRemove_ne (repo : Repo) (i : Nat) (x : TBooking)
    (hx : x ∈ repoRemove repo i) : x.Id ≠ i := by
  unfold repoRemove at hx
  have h2 := (List.mem_filter.mp hx).2
  simpa using h2

theorem mapAssign_append_of_ne (repo : Repo) (nb : TBooking)
    (h : ∀ x ∈ repo, x.Id ≠ nb.Id) : mapAssign repo nb = repo ++ [nb] := by
  unfold mapAssign
  rw [if_neg]
  intro hc
  rcases List.any_eq_true.mp hc with ⟨x, hx, he⟩
  exact h x hx (by simpa using he)

/-- C10: executing `TRemoveBookingCommand` saves the removed booking and
strikes it; undoing re-inserts it through the repository's create
primitive, which reassigns its identifier to `max(live ids) + 1` while
keeping every other field — so whenever some remaining booking has a
larger identifier, the restored booking's identifier differs from the
cancelled one's, and a lookup of the original identifier returns
absent. -/
theorem cancel_undo_reassigns_id (repo : Repo) (i : Nat) (b : TBooking)
    (hget : repoGet repo i = some b) :
    cmdExec (.remove i none) repo = (.remove i (some b), repoRemove repo i) ∧
    cmdUndo (.remove i (some b)) (repoRemove repo i) =
      mapAssign (repoRemove repo i)
        { b with Id := (maxId (repoRemove repo i) + 1) % U64 } ∧
    repoGet (cmdUndo (.remove i (some b)) (repoRemove repo i))
        ((maxId (repoRemove repo i) + 1) % U64) =
      some { b with Id := (maxId (repoRemove repo i) + 1) % U64 } ∧
    (maxId (repoRemove repo i) < U64 - 1 →
      (∃ c ∈ repoRemove repo i, i < c.Id) →
      (maxId (repoRemove repo i) + 1) % U64 ≠ i ∧
      repoGet (cmdUndo (.remove i (some b)) (repoRemove repo i)) i = none) := by
  refine ⟨by simp [cmdExec, hget], rfl, ?_, ?_⟩
  · have hg := repoGet_mapAssign (repoRemove repo i)
      { b with Id := (maxId (repoRemove repo i) + 1) % U64 }
    rw [show ({ b with Id := (maxId (repoRemove repo i) + 1) % U64 } : TBooking).Id =
      (maxId (repoRemove repo i) + 1) % U64 from rfl] at hg
    exact hg
  · intro hmax hex
    rcases hex with ⟨c, hc, hci⟩
    have hnid : (maxId (repoRemove repo i) + 1) % U64 = maxId (repoRemove repo i) + 1 :=
      Nat.mod_eq_of_lt (by omega)
    have hcmax : c.Id ≤ maxId (repoRemove repo i) := mem_le_maxId _ c hc
    constructor
    · rw [hnid]
      omega
    · have happ : mapAssign (repoRemove repo i)
          { b with Id := (maxId (repoRemove repo i) + 1) % U64 } =
          repoRemove repo i ++ [{ b with Id := (maxId (repoRemove repo i) + 1) % U64 }] := by
        apply mapAssign_append_of_ne
        intro x hx
        rw [show ({ b with Id := (maxId (repoRemove repo i) + 1) % U64 } : TBooking).Id =
          (maxId (repoRemove repo i) + 1) % U64 from rfl, hnid]
        have := mem_le_maxId (repoRemove repo i) x hx
        omega
      show repoGet (mapAssign (repoRemove repo i)
        { b with Id := (maxId (repoRemove repo i) + 1) % U64 }) i = none
      rw [happ]
      unfold repoGet
      rw [List.find?_eq_none]
      intro x hx
      rcases List.mem_append.mp hx with hm | hm
      · simpa using mem_repoRemove_ne repo i x hm
      · rcases List.mem_singleton.mp hm with rfl
        simp only [beq_iff_eq]
        rw [hnid]
        omega

/-- Witness for `cancel_undo_reassigns_id`: cancelling booking 1 of
`exRepo2` (bookings 1 and 5) and undoing restores it under identifier 6,
and booking 1 is gone. -/
theorem cancel_undo_reassigns_id_witness :
    (maxId (repoRemove exRepo2 1) + 1) % U64 ≠ 1 ∧
    repoGet (cmdUndo (.remove 1 (some { exB1 with Id := 1 })) (repoRemove exRepo2 1)) 1 =
      none :=
  (cancel_undo_reassigns_id exRepo2 1 { exB1 with Id := 1 } rfl).2.2.2
    (by decide) (by decide)

end RoomBooking
